import Mathlib

/-!
Verification of the job-status/history tracking core of the Azure publish
plugin (`Composer/plugins/azurePublish/src/index.ts`).

The plugin is a JavaScript class (`AzurePublisher`) holding two nested
string-keyed objects (`publishingBots`, the Job Status Table, and
`histories`, the History Store), a shared log buffer (`logMessages`) and a
staging area on disk.  We embed it shallowly:

* JavaScript objects used as string-keyed dictionaries become association
  lists (`Obj α := List (String × α)`); property read is `objGet`, property
  write is `objSet`.  An absent property is `none` (JS `undefined`).
* JavaScript array operations are translated exactly, including the
  negative-index semantics of `Array.prototype.slice` (`jsSlice`) and the
  `-1` result of `findIndex` — both matter for the observable behaviour of
  `removeLoadingStatus`.
* Operations that can throw a `TypeError` (property access on `undefined`)
  return `Except String _`; `.error` is a thrown exception, `.ok` a normal
  return.
* `Date`, `uuid v4` (job ids) and `uuid v5` (resource keys) are external
  collaborators; their outputs are passed to `publish` as explicit inputs
  (`now`, `jobId`, `resourcekey`).
* The filesystem is abstracted to the set of currently staged resource
  keys (`staged`): `init` stages a key, `cleanup` tears it down.  File
  contents (bot assets, merged app settings) never flow back into the
  status/history logic and are not modelled.
* `PERSIST_HISTORY` is `false` in the source, so `updateHistory` performs
  no file write and the constructor performs no load.
-/

namespace AzurePublisher

/-- JS string-keyed object, modelled as an association list.  JS object
property reads return the first (only) binding or `undefined`. -/
abbrev Obj (α : Type) : Type := List (String × α)

/-- JS property read `o[k]`: `some v` when the property is present,
`none` for `undefined`. -/
def objGet {α : Type} : Obj α → String → Option α
  | [], _ => none
  | (k, v) :: rest, key => if k = key then some v else objGet rest key

/-- JS property write `o[k] = v`: overwrites the binding when present,
adds it otherwise. -/
def objSet {α : Type} : Obj α → String → α → Obj α
  | [], key, v => [(key, v)]
  | (k, w) :: rest, key, v =>
      if k = key then (key, v) :: rest else (k, w) :: objSet rest key v

/-- The `result` payload of a job record:
`{ id, time, message, log, comment }` (index.ts lines 284-290). -/
structure JobResult where
  id : String
  time : Nat
  message : String
  log : String
  comment : String
deriving DecidableEq, Repr

/-- A Job Status Table record / publish response:
`{ status, result }` (index.ts lines 282-291). -/
structure JobRecord where
  status : Nat
  result : JobResult
deriving DecidableEq, Repr

/-- A History Store entry, built as `{ status: r.status, ...r.result }`
(index.ts lines 166, 178, 310). -/
structure HistoryEntry where
  status : Nat
  id : String
  time : Nat
  message : String
  log : String
  comment : String
deriving DecidableEq, Repr

/-- The mutable state of the `AzurePublisher` instance, plus the staging
area of the filesystem abstracted to the set of staged resource keys. -/
structure PubState where
  publishingBots : Obj (Obj (List JobRecord))
  histories : Obj (Obj (List HistoryEntry))
  logMessages : List String
  staged : List String
deriving DecidableEq, Repr

/-- The constructor state: empty tables, empty log, nothing staged
(index.ts lines 38-46; `PERSIST_HISTORY` is false, so no history load). -/
def initialState : PubState :=
  { publishingBots := [], histories := [], logMessages := [], staged := [] }

/-- `Array.prototype.join(sep)` restricted to `sep = "\n"`, exactly as
`this.logMessages.join('\n')` uses it. -/
def joinNL : List String → String
  | [] => ""
  | [x] => x
  | x :: y :: rest => x ++ "\n" ++ joinNL (y :: rest)

/-- Clamp one `Array.prototype.slice` bound to an index: negative values
count from the end (floored at 0), positive ones are capped at the
length. -/
def jsSliceIdx (len : Nat) (i : Int) : Nat :=
  if i < 0 then ((len : Int) + i).toNat else min i.toNat len

/-- `Array.prototype.slice(b, e)` with full JS negative-index
semantics. -/
def jsSlice {α : Type} (l : List α) (b e : Int) : List α :=
  let s := jsSliceIdx l.length b
  let t := jsSliceIdx l.length e
  (l.drop s).take (t - s)

/-- `getHistory(botId, profileName)` (index.ts lines 95-100): the stored
sequence when both containers exist, else `[]`.  (`this.histories` itself
is always a truthy object.) -/
def getHistory (s : PubState) (botId profileName : String) : List HistoryEntry :=
  match objGet s.histories botId with
  | none => []
  | some m =>
    match objGet m profileName with
    | none => []
    | some l => l

/-- `updateHistory(botId, profileName, newHistory)` (index.ts lines
102-113): create missing containers, `unshift` the entry (insert at
head).  `PERSIST_HISTORY` is false, so no file write. -/
def updateHistory (s : PubState) (botId profileName : String)
    (newHistory : HistoryEntry) : PubState :=
  let m := (objGet s.histories botId).getD []
  let l := (objGet m profileName).getD []
  { s with histories := objSet s.histories botId (objSet m profileName (newHistory :: l)) }

/-- `addLoadingStatus(botId, profileName, newStatus)` (index.ts lines
115-124): create missing containers, `push` the record (insert at
tail). -/
def addLoadingStatus (s : PubState) (botId profileName : String)
    (newStatus : JobRecord) : PubState :=
  let m := (objGet s.publishingBots botId).getD []
  let l := (objGet m profileName).getD []
  { s with publishingBots := objSet s.publishingBots botId (objSet m profileName (l ++ [newStatus])) }

/-- JS element read `l[i]` with a possibly negative index: in-range reads
yield the element, anything else yields `undefined`. -/
def jsIndex {α : Type} (l : List α) (index : Int) : Option α :=
  if (0 : Int) ≤ index then l.get? index.toNat else none

/-- `removeLoadingStatus(botId, profileName, jobId)` (index.ts lines
125-135).  When both containers exist: `findIndex` (possibly `-1`),
`list[index]` (JS yields `undefined` at `-1`), then reassign the list to
`list.slice(0, index).concat(list.slice(index + 1))` — with JS slice
semantics, so at `index = -1` this is `list.slice(0, -1) ++ list`.
Returns the looked-up record.  When a container is absent: plain
`return` (`undefined`), no mutation. -/
def removeLoadingStatus (s : PubState) (botId profileName jobId : String) :
    PubState × Option JobRecord :=
  match objGet s.publishingBots botId with
  | none => (s, none)
  | some m =>
    match objGet m profileName with
    | none => (s, none)
    | some l =>
      let index : Int :=
        match l.findIdx? (fun item => item.result.id == jobId) with
        | some i => (i : Int)
        | none => -1
      let status : Option JobRecord := jsIndex l index
      let newList := jsSlice l 0 index ++ jsSlice l (index + 1) l.length
      ({ s with publishingBots := objSet s.publishingBots botId (objSet m profileName newList) },
       status)

/-- `getLoadingStatus(botId, profileName, jobId = '')` (index.ts lines
136-145).  The guard is `publishingBots[botId] && publishingBots[botId][profileName].length > 0`:
when the bot container exists but the profile list does not, reading
`.length` of `undefined` throws a `TypeError` (modelled as `.error`).
Otherwise: with a (truthy, i.e. non-empty) `jobId`, `find` by
`result.id`; with no `jobId`, the tail element `l[l.length - 1]`. -/
def getLoadingStatus (s : PubState) (botId profileName : String)
    (jobId : String := "") : Except String (Option JobRecord) :=
  match objGet s.publishingBots botId with
  | none => .ok none
  | some m =>
    match objGet m profileName with
    | none => .error "TypeError: Cannot read property length of undefined"
    | some l =>
      if l.length > 0 then
        if jobId ≠ "" then .ok (l.find? (fun item => item.result.id == jobId))
        else .ok l.getLast?
      else .ok none

/-- The effective Job Status Table list for a key: the stored list when
both containers exist, else empty.  (Specification-side view used to
state properties; the operations above never read through it.) -/
def tableView (s : PubState) (botId profileName : String) : List JobRecord :=
  (((objGet s.publishingBots botId).bind (fun m => objGet m profileName))).getD []

/-- The effective History sequence for a key (coincides with
`getHistory`). -/
def historyView (s : PubState) (botId profileName : String) : List HistoryEntry :=
  getHistory s botId profileName

/-- The provisioning metadata object passed in the publish config; the
status/history logic only tests its presence (`!provision`) — its fields
are merged into the staged `appsettings.deployment.json`, which the
filesystem abstraction does not track.  The one field the core reads is
`MicrosoftAppPassword` (used in the resource-key hash input). -/
structure ProvisionInfo where
  MicrosoftAppPassword : String
deriving DecidableEq, Repr

/-- The publish profile config destructured at the top of `publish`
(index.ts lines 190-202).  `accessToken` is a JS string whose falsiness
(`undefined` or `""`) is modelled by the empty string; `provision` is an
object or `undefined`, modelled by `Option`.  `settings` and
`templatePath` only feed the staging step and are not tracked. -/
structure PublishConfig where
  name : String
  subscriptionID : String
  publishName : String
  environment : String
  location : String
  luisAuthoringKey : String
  luisAuthoringRegion : String
  provision : Option ProvisionInfo
  accessToken : String
deriving DecidableEq, Repr

/-- The caller's project object; the status/history logic reads only
`project.id` (the bot id).  `project.name`, the files and the runtime
settings feed the resource key / staging step only. -/
structure Project where
  id : String
  name : String
deriving DecidableEq, Repr

/-- The caller's metadata object; the core reads only
`metadata.comment`. -/
structure Metadata where
  comment : String
deriving DecidableEq, Repr

/-- `init` (index.ts lines 51-81): materialize bot files, settings and
runtime template under the staging directory of `resourcekey`.  In the
filesystem abstraction its observable effect is that the resource key is
staged. -/
def stage (s : PubState) (resourcekey : String) : PubState :=
  { s with staged := if resourcekey ∈ s.staged then s.staged else s.staged ++ [resourcekey] }

/-- `cleanup(resourcekey)` (index.ts lines 83-87): empty and remove the
staging directory of `resourcekey`. -/
def cleanup (s : PubState) (resourcekey : String) : PubState :=
  { s with staged := s.staged.filter (fun k => k ≠ resourcekey) }

/-- The message of the error thrown when `accessToken` is falsy
(index.ts line 244). -/
def accessTokenErrMsg : String :=
  "Required field `accessToken` is missing from publishing profile."

/-- The message of the error thrown when `provision` is falsy (index.ts
lines 247-249). -/
def provisionErrMsg : String :=
  "no successful created resource in Azure according to your config, please run provision script to do the provision"

/-- `publish(config, project, metadata, user)` (index.ts lines 188-314),
synchronous phase.  The external collaborators `uuid()` (the fresh `jobId`),
`hash(...)` (the `resourcekey`) and `new Date()` (`now`) are passed in as
inputs.  After staging, validation either throws into the `catch` block —
which pushes the error message onto the log buffer, writes a 500 entry
straight to History, tears the staging directory down and returns the
500 response — or proceeds to reset the log buffer, build the 202
response, insert it into the Job Status Table and return it.  The
deployment itself (`createAndDeploy`) is started without `await`; its
suspended continuation is modelled by the separate `createAndDeploy`
function below. -/
def publish (s : PubState) (config : PublishConfig) (project : Project)
    (metadata : Metadata) (jobId : String) (now : Nat) (resourcekey : String) :
    PubState × JobRecord :=
  let botId := project.id
  let s0 := stage s resourcekey
  if config.accessToken = "" ∨ config.provision.isNone then
    let errMsg := if config.accessToken = "" then accessTokenErrMsg else provisionErrMsg
    let logs := s0.logMessages ++ [errMsg]
    let response : JobRecord :=
      { status := 500,
        result := { id := jobId, time := now, message := "Publish Fail",
                    log := joinNL logs, comment := metadata.comment } }
    let s1 := { s0 with logMessages := logs }
    let entry : HistoryEntry :=
      { status := response.status, id := response.result.id, time := response.result.time,
        message := response.result.message, log := response.result.log,
        comment := response.result.comment }
    let s2 := updateHistory s1 botId config.name entry
    let s3 := cleanup s2 resourcekey
    (s3, response)
  else
    let s1 := { s0 with logMessages := ["Publish starting..."] }
    let response : JobRecord :=
      { status := 202,
        result := { id := jobId, time := now, message := "Accepted for publishing.",
                    log := joinNL s1.logMessages, comment := metadata.comment } }
    let s2 := addLoadingStatus s1 botId config.name response
    (s2, response)

/-- The outcome of the external deployment orchestrator
(`azDeployer.deploy`): success, or a thrown error whose `message` the
catch block reads (`error ? error.message : 'publish error'`; a falsy
error is modelled by `none`). -/
inductive DeployOutcome where
  | success
  | failure (errMessage : Option String)
deriving DecidableEq, Repr

/-- The in-place mutation performed on the found record at completion:
`status.status = ...; status.result.message = ...;
status.result.log = this.logMessages.join('\n')` (index.ts lines 163-165
and 175-177). -/
def completedRecord (found : JobRecord) (newStatus : Nat) (newMessage : String)
    (logMessages : List String) : JobRecord :=
  { found with
    status := newStatus
    result := { found.result with
                message := newMessage
                log := joinNL logMessages } }

/-- The shared completion logic of `createAndDeploy`'s `try` and `catch`
branches (index.ts lines 160-181), run once the job record has been
found: mutate the record in place (status, `result.message`,
`result.log`), append `{ status, ...result }` to History, remove the
record from the Job Status Table and tear down the staging directory.
The in-place mutation is rendered by overwriting the record at the index
`find`/`findIndex` locate (the first record with that `result.id`). -/
def completeJob (s : PubState) (botId profileName jobId resourcekey : String)
    (newStatus : Nat) (newMessage : String) : PubState :=
  match objGet s.publishingBots botId with
  | none => s
  | some m =>
    match objGet m profileName with
    | none => s
    | some l =>
      match l.findIdx? (fun item => item.result.id == jobId) with
      | none => s
      | some i =>
        match l.get? i with
        | none => s
        | some found =>
          let updated := completedRecord found newStatus newMessage s.logMessages
          let newBots := objSet s.publishingBots botId (objSet m profileName (l.set i updated))
          let s1 := { s with publishingBots := newBots }
          let entry : HistoryEntry :=
            { status := updated.status, id := updated.result.id, time := updated.result.time,
              message := updated.result.message, log := updated.result.log,
              comment := updated.result.comment }
          let s2 := updateHistory s1 botId profileName entry
          let s3 := (removeLoadingStatus s2 botId profileName jobId).1
          cleanup s3 resourcekey

/-- `createAndDeploy(botId, profileName, jobId, resourcekey, ...)`
(index.ts lines 147-183), the part after the `await` on the deploy.  The
orchestrator's outcome and the log lines its logger callback pushed are
inputs.  On success the looked-up record moves to 200/'Success'; on a
thrown deploy error to 500 with the error's message.  If the record is no
longer present (`status` falsy) the completion is a no-op.  If the lookup
itself throws (bot container present, profile container absent), the
`TypeError` escapes the async function — in the success branch it is
first caught and then rethrown by the second lookup in `catch`. -/
def createAndDeploy (s : PubState) (botId profileName jobId resourcekey : String)
    (outcome : DeployOutcome) (deployLogs : List String) :
    Except String PubState :=
  let s0 := { s with logMessages := s.logMessages ++ deployLogs }
  match outcome with
  | .success =>
    match getLoadingStatus s0 botId profileName jobId with
    | .error e => .error e
    | .ok none => .ok s0
    | .ok (some _) =>
      .ok (completeJob s0 botId profileName jobId resourcekey 200 "Success")
  | .failure errMessage =>
    match getLoadingStatus s0 botId profileName jobId with
    | .error e => .error e
    | .ok none => .ok s0
    | .ok (some _) =>
      .ok (completeJob s0 botId profileName jobId resourcekey 500
        (errMessage.getD "publish error"))

/-- The status/result envelope returned by `getStatus`: a dynamic JS
object whose `result` sub-object may lack fields, rendered with one
`Option` per possible property.  A History entry reshaped as
`{ status: e.status, result: { ...e } }` carries its `status` inside
`result` as well (`resultStatus`); the synthetic 404 carries only a
message. -/
structure Envelope where
  status : Nat
  resultId : Option String
  resultTime : Option Nat
  resultMessage : Option String
  resultLog : Option String
  resultComment : Option String
  resultStatus : Option Nat
deriving DecidableEq, Repr

/-- The envelope of a Job Status Table record returned as-is. -/
def JobRecord.toEnvelope (r : JobRecord) : Envelope :=
  { status := r.status, resultId := some r.result.id, resultTime := some r.result.time,
    resultMessage := some r.result.message, resultLog := some r.result.log,
    resultComment := some r.result.comment, resultStatus := none }

/-- The envelope `{ status: e.status, result: { ...e } }` of the newest
History entry (index.ts line 326). -/
def HistoryEntry.toEnvelope (e : HistoryEntry) : Envelope :=
  { status := e.status, resultId := some e.id, resultTime := some e.time,
    resultMessage := some e.message, resultLog := some e.log,
    resultComment := some e.comment, resultStatus := some e.status }

/-- The synthetic `{ status: 404, result: { message: 'bot not published' } }`
(index.ts lines 328-333). -/
def notPublishedEnvelope : Envelope :=
  { status := 404, resultId := none, resultTime := none,
    resultMessage := some "bot not published", resultLog := none,
    resultComment := none, resultStatus := none }

/-- `getStatus(config, project, user)` (index.ts lines 316-335): the Job
Status Table's latest record when `getLoadingStatus` finds one, else the
newest History entry reshaped, else the synthetic 404.  A `TypeError`
thrown by `getLoadingStatus` propagates (`.error`). -/
def getStatus (s : PubState) (config : PublishConfig) (project : Project) :
    Except String Envelope :=
  let profileName := config.name
  let botId := project.id
  match getLoadingStatus s botId profileName with
  | .error e => .error e
  | .ok (some status) => .ok status.toEnvelope
  | .ok none =>
    match getHistory s botId profileName with
    | e :: _ => .ok e.toEnvelope
    | [] => .ok notPublishedEnvelope

/-- `history(config, project, user)` (index.ts lines 337-341). -/
def history (s : PubState) (config : PublishConfig) (project : Project) :
    List HistoryEntry :=
  getHistory s project.id config.name

/-! ### Basic lemmas about the JS object embedding -/

theorem objGet_objSet_self {α : Type} (o : Obj α) (k : String) (v : α) :
    objGet (objSet o k v) k = some v := by
  induction o with
  | nil => simp [objSet, objGet]
  | cons hd rest ih =>
    obtain ⟨k1, v1⟩ := hd
    by_cases h : k1 = k <;> simp [objSet, objGet, h, ih]

theorem objGet_objSet_ne {α : Type} (o : Obj α) (k k' : String) (v : α)
    (h : k' ≠ k) : objGet (objSet o k v) k' = objGet o k' := by
  have hkk : ¬ k = k' := fun e => h e.symm
  induction o with
  | nil => simp [objSet, objGet, hkk]
  | cons hd rest ih =>
    obtain ⟨k1, v1⟩ := hd
    by_cases h1 : k1 = k
    · subst h1
      simp [objSet, objGet, hkk]
    · simp [objSet, objGet, h1, ih]

/-- The effective table list seen through the nested `getD`s used by the
mutators. -/
theorem tableView_eq (s : PubState) (b p : String) :
    tableView s b p = (objGet ((objGet s.publishingBots b).getD []) p).getD [] := by
  unfold tableView
  cases objGet s.publishingBots b <;> simp [objGet]

/-- `addLoadingStatus` appends the record at the tail of its own key's
list. -/
theorem tableView_addLoadingStatus (s : PubState) (b p : String) (r : JobRecord) :
    tableView (addLoadingStatus s b p r) b p = tableView s b p ++ [r] := by
  unfold addLoadingStatus
  rw [tableView_eq, tableView_eq]
  simp [objGet_objSet_self]

theorem histories_addLoadingStatus (s : PubState) (b p : String) (r : JobRecord) :
    (addLoadingStatus s b p r).histories = s.histories := rfl

theorem publishingBots_updateHistory (s : PubState) (b p : String) (e : HistoryEntry) :
    (updateHistory s b p e).publishingBots = s.publishingBots := rfl

theorem staged_updateHistory (s : PubState) (b p : String) (e : HistoryEntry) :
    (updateHistory s b p e).staged = s.staged := rfl

theorem publishingBots_cleanup (s : PubState) (k : String) :
    (cleanup s k).publishingBots = s.publishingBots := rfl

theorem histories_cleanup (s : PubState) (k : String) :
    (cleanup s k).histories = s.histories := rfl

theorem publishingBots_stage (s : PubState) (k : String) :
    (stage s k).publishingBots = s.publishingBots := rfl

/-- After `cleanup rkey` the resource key is no longer staged. -/
theorem not_staged_cleanup (s : PubState) (k : String) : k ∉ (cleanup s k).staged := by
  simp [cleanup]

/-- `getHistory` after `updateHistory` at the same key: the new entry is
at the head of the previous sequence. -/
theorem getHistory_updateHistory_self (s : PubState) (b p : String) (e : HistoryEntry) :
    getHistory (updateHistory s b p e) b p = e :: getHistory s b p := by
  unfold getHistory updateHistory
  cases hb : objGet s.histories b with
  | none => simp [objGet_objSet_self, objGet]
  | some m =>
    cases hp : objGet m p with
    | none => simp [hb, hp, objGet_objSet_self]
    | some l => simp [hb, hp, objGet_objSet_self]

/-! ### Lemmas about the JS array-operation embedding -/

/-- `l.slice(0, n)` for a non-negative `n` is `take n`. -/
theorem jsSlice_zero_coe {α : Type} (l : List α) (n : Nat) :
    jsSlice l 0 (n : Int) = l.take n := by
  unfold jsSlice jsSliceIdx
  simp only [if_neg (by omega : ¬ (0 : Int) < 0), if_neg (by omega : ¬ (n : Int) < 0)]
  simp only [Int.toNat_zero, Int.toNat_natCast, Nat.zero_min, List.drop_zero, Nat.sub_zero]
  rcases le_or_lt n l.length with h | h
  · rw [Nat.min_eq_left h]
  · rw [Nat.min_eq_right (Nat.le_of_lt h), List.take_length,
      List.take_of_length_le (Nat.le_of_lt h)]

/-- `l.slice(n, l.length)` for a non-negative `n` is `drop n`. -/
theorem jsSlice_coe_length {α : Type} (l : List α) (n : Nat) :
    jsSlice l (n : Int) (l.length : Int) = l.drop n := by
  unfold jsSlice jsSliceIdx
  simp only [if_neg (by omega : ¬ (n : Int) < 0),
    if_neg (by omega : ¬ (l.length : Int) < 0), Int.toNat_natCast]
  rcases le_or_lt n l.length with h | h
  · rw [Nat.min_eq_left h, Nat.min_eq_left (Nat.le_refl _),
      List.take_of_length_le (by simp [Nat.le_refl])]
  · rw [Nat.min_eq_right (Nat.le_of_lt h), Nat.min_eq_left (Nat.le_refl _),
      List.drop_eq_nil_of_le (Nat.le_refl _), List.drop_eq_nil_of_le (Nat.le_of_lt h)]
    simp

/-- `join('\n')` distributes over appending one element: the element ends
the joined string. -/
theorem joinNL_suffix (xs : List String) (e : String) :
    e.data <:+ (joinNL (xs ++ [e])).data := by
  induction xs with
  | nil => simp [joinNL]
  | cons x rest ih =>
    cases rest with
    | nil =>
      show e.data <:+ (joinNL [x, e]).data
      simp only [joinNL, String.data_append]
      exact List.suffix_append _ _
    | cons y rest2 =>
      show e.data <:+ (x ++ "\n" ++ joinNL ((y :: rest2) ++ [e])).data
      simp only [String.data_append]
      exact ih.trans (List.suffix_append _ _)

/-! ### Concrete fixtures for counterexamples and witnesses -/

/-- A concrete in-flight job record with id `A`. -/
def recA : JobRecord :=
  { status := 202,
    result := { id := "A", time := 1, message := "mA", log := "", comment := "cA" } }

/-- A concrete in-flight job record with id `B`. -/
def recB : JobRecord :=
  { status := 202,
    result := { id := "B", time := 2, message := "mB", log := "", comment := "cB" } }

/-- A state whose Job Status Table holds `[recA, recB]` under
`("bot1", "prod")`. -/
def stateAB : PubState :=
  { publishingBots := [("bot1", [("prod", [recA, recB])])],
    histories := [], logMessages := [], staged := [] }

/-- A state whose Job Status Table has the `"bot2"` container with a list
only under `"prod"` — the shape any publish for `("bot2", "prod")`
leaves behind. -/
def stateBot2Prod : PubState :=
  { publishingBots := [("bot2", [("prod", [recA])])],
    histories := [], logMessages := [], staged := [] }

/-- A config whose profile name is `"staging"` (used only for its
`name`). -/
def cfgStaging : PublishConfig :=
  { name := "staging", subscriptionID := "", publishName := "", environment := "",
    location := "", luisAuthoringKey := "", luisAuthoringRegion := "",
    provision := none, accessToken := "" }

/-- The project for bot id `"bot2"`. -/
def projBot2 : Project := { id := "bot2", name := "two" }

/-! ### Claim theorems -/

/-- C1 (code bug): `removeLoadingStatus` with a jobId matching no record
of an existing list is NOT the claimed order-preserving no-op.  With
`findIndex` returning `-1`, the list is reassigned to
`slice(0, -1).concat(slice(0))`, which on `[recA, recB]` yields
`[recA, recA, recB]` — the lookup result is still `undefined` and nothing
is thrown, but the list is changed (a record is duplicated), violating
the claim (and the spec's "no-op with not-found result"). -/
theorem removeLoadingStatus_missing_id_duplicates :
    (removeLoadingStatus stateAB "bot1" "prod" "zzz").2 = none ∧
    tableView (removeLoadingStatus stateAB "bot1" "prod" "zzz").1 "bot1" "prod"
      = [recA, recA, recB] ∧
    tableView stateAB "bot1" "prod" = [recA, recB] := by
  refine ⟨rfl, rfl, rfl⟩

/-- C2 (code bug): `getLoadingStatus` — and hence `getStatus` — throws a
`TypeError` when the bot's container exists but the queried profile's
list does not: the guard reads `.length` of `undefined`.  In the state
left by a publish for `("bot2", "prod")`, querying the profile
`"staging"` of the same bot faults instead of signalling absence through
the return value. -/
theorem getLoadingStatus_and_getStatus_throw :
    getLoadingStatus stateBot2Prod "bot2" "staging"
      = .error "TypeError: Cannot read property length of undefined" ∧
    getStatus stateBot2Prod cfgStaging projBot2
      = .error "TypeError: Cannot read property length of undefined" := by
  refine ⟨rfl, rfl⟩

/-- C7 (code bug): the claim's "key is absent → returns undefined" arm of
`getLoadingStatus` (no job id) fails when the bot container exists but
the profile key is absent: the call throws a `TypeError` instead of
returning `undefined`.  (On a non-empty list it does return the tail, and
it mutates nothing — the fault is confined to this absence case.) -/
theorem getLoadingStatus_no_jobId_absent_profile_throws :
    getLoadingStatus stateAB "bot1" "other"
      = .error "TypeError: Cannot read property length of undefined" ∧
    getLoadingStatus stateAB "bot1" "prod" = .ok (some recB) := by
  refine ⟨rfl, rfl⟩

/-- The History Store has never seen this `(botId, profileName)` key: the
bot container is absent, or it exists without the profile key. -/
def historyKeyUnseen (s : PubState) (botId profileName : String) : Bool :=
  match objGet s.histories botId with
  | none => true
  | some m => (objGet m profileName).isNone

/-- `getHistory` after a sequence of `updateHistory` calls for one key. -/
theorem getHistory_foldl_updateHistory (entries : List HistoryEntry)
    (s : PubState) (b p : String) :
    getHistory (entries.foldl (fun st e => updateHistory st b p e) s) b p
      = entries.reverse ++ getHistory s b p := by
  induction entries generalizing s with
  | nil => simp
  | cons e rest ih =>
    simp only [List.foldl_cons, List.reverse_cons]
    rw [ih, getHistory_updateHistory_self]
    simp

/-- C6: every `updateHistory` call inserts at the head of its key's
sequence (creating containers as needed), so after N calls `getHistory`
returns the N entries in reverse insertion order (on top of whatever the
key already held — nothing for a fresh key); and for a key or profile
never seen, `getHistory` returns the empty sequence. -/
theorem updateHistory_head_getHistory :
    (∀ (s : PubState) (b p : String) (entries : List HistoryEntry),
        getHistory (entries.foldl (fun st e => updateHistory st b p e) s) b p
          = entries.reverse ++ getHistory s b p) ∧
    (∀ (s : PubState) (b p : String),
        historyKeyUnseen s b p = true → getHistory s b p = []) := by
  constructor
  · intro s b p entries
    exact getHistory_foldl_updateHistory entries s b p
  · intro s b p h
    unfold getHistory
    unfold historyKeyUnseen at h
    cases hb : objGet s.histories b with
    | none => rfl
    | some m =>
      rw [hb] at h
      dsimp only at h ⊢
      cases hp : objGet m p with
      | none => rfl
      | some l => rw [hp] at h; simp at h

/-- A concrete completed history entry for job `A`. -/
def entA : HistoryEntry :=
  { status := 200, id := "A", time := 1, message := "mA", log := "", comment := "cA" }

/-- A concrete completed history entry for job `B`. -/
def entB : HistoryEntry :=
  { status := 500, id := "B", time := 2, message := "mB", log := "", comment := "cB" }

/-- Witness for C6: in the empty initial state the key `("b", "p")` is
unseen and `getHistory` returns `[]`; two updates then show up in reverse
insertion order. -/
theorem updateHistory_head_getHistory_witness :
    getHistory (([entA, entB].foldl (fun st e => updateHistory st "b" "p" e) initialState))
        "b" "p" = [entB, entA] ∧
    historyKeyUnseen initialState "b" "p" = true ∧
    getHistory initialState "b" "p" = [] := by
  refine ⟨?_, by decide, updateHistory_head_getHistory.2 initialState "b" "p" (by decide)⟩
  have h := updateHistory_head_getHistory.1 initialState "b" "p" [entA, entB]
  simpa using h

/-- The Job Status Table list for a key is defined: the bot container is
absent altogether, or both containers exist (so the stored list — empty
or not — is the effective list).  This rules out exactly the
`TypeError` state of `getLoadingStatus` (see C2/C7). -/
def tableListDefined (s : PubState) (botId profileName : String) : Bool :=
  match objGet s.publishingBots botId with
  | none => true
  | some m => (objGet m profileName).isSome

/-- C3: for every combination of empty/non-empty Job Status Table list
and empty/non-empty History for a key (with the table list defined in
the sense of `tableListDefined`), `getStatus` returns the table's latest
(tail) record when there is one, else the newest History entry reshaped
into a status/result envelope, else the synthetic 404 "bot not
published" result. -/
theorem getStatus_selection (s : PubState) (cfg : PublishConfig) (proj : Project)
    (h : tableListDefined s proj.id cfg.name = true) :
    getStatus s cfg proj = .ok (
      match (tableView s proj.id cfg.name).getLast? with
      | some r => r.toEnvelope
      | none =>
        match getHistory s proj.id cfg.name with
        | e :: _ => e.toEnvelope
        | [] => notPublishedEnvelope) := by
  unfold getStatus getLoadingStatus
  unfold tableListDefined at h
  rw [tableView_eq]
  dsimp only
  cases hb : objGet s.publishingBots proj.id with
  | none =>
    cases getHistory s proj.id cfg.name <;> rfl
  | some m =>
    rw [hb] at h
    dsimp only [Option.getD_some] at h ⊢
    cases hp : objGet m cfg.name with
    | none => rw [hp] at h; simp at h
    | some l =>
      dsimp only [Option.getD_some]
      cases l with
      | nil =>
        rw [if_neg (by simp)]
        cases getHistory s proj.id cfg.name <;> rfl
      | cons x xs =>
        rw [if_pos (by simp)]
        rw [if_neg (by simp : ¬ (("" : String) ≠ ""))]
        cases hl : (x :: xs).getLast? with
        | none => simp at hl
        | some a => rfl

/-- The config used for `("bot1", "prod")` queries. -/
def cfgProd : PublishConfig :=
  { name := "prod", subscriptionID := "", publishName := "", environment := "",
    location := "", luisAuthoringKey := "", luisAuthoringRegion := "",
    provision := none, accessToken := "" }

/-- The project for bot id `"bot1"`. -/
def projBot1 : Project := { id := "bot1", name := "one" }

/-- Witness for C3 at a concrete state with a non-empty table list: the
tail record is returned. -/
theorem getStatus_selection_witness :
    tableListDefined stateAB projBot1.id cfgProd.name = true ∧
    getStatus stateAB cfgProd projBot1 = .ok (
      match (tableView stateAB projBot1.id cfgProd.name).getLast? with
      | some r => r.toEnvelope
      | none =>
        match getHistory stateAB projBot1.id cfgProd.name with
        | e :: _ => e.toEnvelope
        | [] => notPublishedEnvelope) :=
  ⟨by decide, getStatus_selection stateAB cfgProd projBot1 (by decide)⟩

/-- `findIndex` by job id on a list appended with a fresh-id record finds
exactly the appended record. -/
theorem findIdx?_id_append_fresh (l : List JobRecord) (r : JobRecord)
    (h : ∀ x ∈ l, x.result.id ≠ r.result.id) :
    (l ++ [r]).findIdx? (fun item => item.result.id == r.result.id) = some l.length := by
  rw [List.findIdx?_append]
  have hnone : l.findIdx? (fun item => item.result.id == r.result.id) = none := by
    rw [List.findIdx?_eq_none_iff]
    intro x hx
    simpa using h x hx
  rw [hnone]
  simp [List.findIdx?_cons]

/-- C5: `addLoadingStatus` followed by `removeLoadingStatus` with the
inserted record's (fresh) job id returns the removed record — equal to
what was inserted — and restores the key's list to its prior value (in
particular, its prior length). -/
theorem add_remove_roundtrip (s : PubState) (b p : String) (r : JobRecord)
    (hfresh : ∀ x ∈ tableView s b p, x.result.id ≠ r.result.id) :
    (removeLoadingStatus (addLoadingStatus s b p r) b p r.result.id).2 = some r ∧
    tableView (removeLoadingStatus (addLoadingStatus s b p r) b p r.result.id).1 b p
      = tableView s b p := by
  have hview := tableView_eq s b p
  unfold addLoadingStatus
  simp only [removeLoadingStatus, objGet_objSet_self, ← hview]
  rw [findIdx?_id_append_fresh (tableView s b p) r hfresh]
  dsimp only
  have hidx : jsIndex (tableView s b p ++ [r]) ((tableView s b p).length : Int) = some r := by
    unfold jsIndex
    rw [if_pos (by positivity), Int.toNat_natCast, List.get?_eq_getElem?]
    exact List.getElem?_concat_length _ _
  have hsl1 : jsSlice (tableView s b p ++ [r]) 0 ((tableView s b p).length : Int)
      = tableView s b p := by
    rw [jsSlice_zero_coe]
    exact List.take_left _ _
  have hsl2 : jsSlice (tableView s b p ++ [r]) (((tableView s b p).length : Int) + 1)
      ((tableView s b p ++ [r]).length : Int) = [] := by
    have hc : ((tableView s b p).length : Int) + 1 = (((tableView s b p).length + 1 : Nat) : Int) := by
      push_cast; ring
    rw [hc, jsSlice_coe_length]
    exact List.drop_eq_nil_of_le (by simp)
  rw [hidx, hsl1, hsl2]
  refine ⟨rfl, ?_⟩
  rw [tableView_eq]
  simp [objGet_objSet_self]

/-- Witness for C5: inserting `recB` into a state already holding `recA`
(fresh id) and removing it restores the one-element list. -/
theorem add_remove_roundtrip_witness :
    (removeLoadingStatus (addLoadingStatus stateBot2Prod "bot2" "prod" recB)
        "bot2" "prod" recB.result.id).2 = some recB ∧
    tableView (removeLoadingStatus (addLoadingStatus stateBot2Prod "bot2" "prod" recB)
        "bot2" "prod" recB.result.id).1 "bot2" "prod"
      = tableView stateBot2Prod "bot2" "prod" :=
  add_remove_roundtrip stateBot2Prod "bot2" "prod" recB (by decide)

theorem getHistory_cleanup (s : PubState) (k : String) (b p : String) :
    getHistory (cleanup s k) b p = getHistory s b p := rfl

/-- C4: `publish` with a missing `accessToken` returns a status-500
result whose log ends with the missing-access-token error message (the
`message` field itself is the generic `'Publish Fail'`; the thrown
error's text is pushed onto the log buffer and attached as the result's
log), adds no Job Status Table record, appends exactly one status-500
History entry for `(project.id, config.name)`, and tears down the
staging directory of the resource key. -/
theorem publish_missing_access_token (s : PubState) (cfg : PublishConfig)
    (proj : Project) (meta : Metadata) (jobId : String) (now : Nat) (rkey : String)
    (htok : cfg.accessToken = "")
    (s' : PubState) (r : JobRecord)
    (hp : publish s cfg proj meta jobId now rkey = (s', r)) :
    r.status = 500 ∧
    accessTokenErrMsg.data <:+ r.result.log.data ∧
    s'.publishingBots = s.publishingBots ∧
    getHistory s' proj.id cfg.name
      = { status := 500, id := jobId, time := now, message := "Publish Fail",
          log := joinNL (s.logMessages ++ [accessTokenErrMsg]),
          comment := meta.comment } :: getHistory s proj.id cfg.name ∧
    rkey ∉ s'.staged := by
  unfold publish at hp
  dsimp only at hp
  rw [if_pos (Or.inl htok), htok] at hp
  rw [if_pos (rfl : ("" : String) = "")] at hp
  rw [Prod.mk.injEq] at hp
  obtain ⟨hs, hr⟩ := hp
  subst hs; subst hr
  refine ⟨rfl, ?_, rfl, ?_, ?_⟩
  · exact joinNL_suffix _ _
  · rw [getHistory_cleanup, getHistory_updateHistory_self]
    rfl
  · simp [cleanup]

/-- A profile config with provisioning metadata but no access token. -/
def cfgNoTok : PublishConfig :=
  { cfgProd with provision := some { MicrosoftAppPassword := "pw" }, accessToken := "" }

/-- A profile config with provisioning metadata and an access token. -/
def cfgValid : PublishConfig :=
  { cfgProd with provision := some { MicrosoftAppPassword := "pw" }, accessToken := "tok" }

/-- A concrete publish metadata object. -/
def metaC : Metadata := { comment := "c" }

/-- Witness for C4 at the empty initial state. -/
theorem publish_missing_access_token_witness :
    (publish initialState cfgNoTok projBot1 metaC "J1" 7 "RK").2.status = 500 ∧
    accessTokenErrMsg.data <:+
      (publish initialState cfgNoTok projBot1 metaC "J1" 7 "RK").2.result.log.data ∧
    (publish initialState cfgNoTok projBot1 metaC "J1" 7 "RK").1.publishingBots
      = initialState.publishingBots ∧
    getHistory (publish initialState cfgNoTok projBot1 metaC "J1" 7 "RK").1
        projBot1.id cfgNoTok.name
      = { status := 500, id := "J1", time := 7, message := "Publish Fail",
          log := joinNL (initialState.logMessages ++ [accessTokenErrMsg]),
          comment := metaC.comment } :: getHistory initialState projBot1.id cfgNoTok.name ∧
    "RK" ∉ (publish initialState cfgNoTok projBot1 metaC "J1" 7 "RK").1.staged :=
  publish_missing_access_token initialState cfgNoTok projBot1 metaC "J1" 7 "RK" rfl _ _ rfl

/-- C10: on either validation failure (missing access token or missing
provisioning), the 500 result and the single History entry appended for
it carry the same job id — the one generated at the start of the call —
even though no Job Status Table record is created; the result also
carries the caller's `metadata.comment` and the call's timestamp. -/
theorem publish_validation_failure_ids (s : PubState) (cfg : PublishConfig)
    (proj : Project) (meta : Metadata) (jobId : String) (now : Nat) (rkey : String)
    (h : cfg.accessToken = "" ∨ cfg.provision.isNone = true)
    (s' : PubState) (r : JobRecord)
    (hp : publish s cfg proj meta jobId now rkey = (s', r)) :
    r.status = 500 ∧
    r.result.id = jobId ∧
    r.result.comment = meta.comment ∧
    r.result.time = now ∧
    s'.publishingBots = s.publishingBots ∧
    getHistory s' proj.id cfg.name
      = { status := 500, id := jobId, time := now, message := "Publish Fail",
          log := joinNL (s.logMessages ++
            [if cfg.accessToken = "" then accessTokenErrMsg else provisionErrMsg]),
          comment := meta.comment } :: getHistory s proj.id cfg.name := by
  unfold publish at hp
  dsimp only at hp
  rw [if_pos h] at hp
  rw [Prod.mk.injEq] at hp
  obtain ⟨hs, hr⟩ := hp
  subst hs; subst hr
  refine ⟨rfl, rfl, rfl, rfl, rfl, ?_⟩
  rw [getHistory_cleanup, getHistory_updateHistory_self]
  rfl

/-- Witness for C10 at the empty initial state (missing provisioning). -/
theorem publish_validation_failure_ids_witness :
    (publish initialState cfgProd projBot1 metaC "J2" 9 "RK2").2.status = 500 ∧
    (publish initialState cfgProd projBot1 metaC "J2" 9 "RK2").2.result.id = "J2" ∧
    (publish initialState cfgProd projBot1 metaC "J2" 9 "RK2").2.result.comment
      = metaC.comment ∧
    (publish initialState cfgProd projBot1 metaC "J2" 9 "RK2").2.result.time = 9 ∧
    (publish initialState cfgProd projBot1 metaC "J2" 9 "RK2").1.publishingBots
      = initialState.publishingBots ∧
    getHistory (publish initialState cfgProd projBot1 metaC "J2" 9 "RK2").1
        projBot1.id cfgProd.name
      = { status := 500, id := "J2", time := 9, message := "Publish Fail",
          log := joinNL (initialState.logMessages ++
            [if cfgProd.accessToken = "" then accessTokenErrMsg else provisionErrMsg]),
          comment := metaC.comment } :: getHistory initialState projBot1.id cfgProd.name :=
  publish_validation_failure_ids initialState cfgProd projBot1 metaC "J2" 9 "RK2"
    (Or.inl rfl) _ _ rfl

/-- C8: a `publish` call passing validation synthesizes a record carrying
the freshly generated job id, status 202 and the initial log line,
appends it at the tail of the Job Status Table list for
`(project.id, config.name)`, and returns that same record — all before
any deployment outcome exists (`createAndDeploy`'s effects are a separate
later step). -/
theorem publish_valid_accepted (s : PubState) (cfg : PublishConfig)
    (proj : Project) (meta : Metadata) (jobId : String) (now : Nat) (rkey : String)
    (htok : cfg.accessToken ≠ "") (hprov : cfg.provision.isSome = true)
    (s' : PubState) (r : JobRecord)
    (hp : publish s cfg proj meta jobId now rkey = (s', r)) :
    r.status = 202 ∧
    r.result.id = jobId ∧
    r.result.message = "Accepted for publishing." ∧
    r.result.log = "Publish starting..." ∧
    tableView s' proj.id cfg.name = tableView s proj.id cfg.name ++ [r] := by
  have hcond : ¬ (cfg.accessToken = "" ∨ cfg.provision.isNone = true) := by
    rintro (hc | hc)
    · exact htok hc
    · rcases hq : cfg.provision with _ | v
      · rw [hq] at hprov; simp at hprov
      · rw [hq] at hc; simp at hc
  unfold publish at hp
  dsimp only at hp
  rw [if_neg hcond] at hp
  rw [Prod.mk.injEq] at hp
  obtain ⟨hs, hr⟩ := hp
  subst hs; subst hr
  refine ⟨rfl, rfl, rfl, rfl, ?_⟩
  rw [tableView_addLoadingStatus]
  rfl

/-- Witness for C8 at the empty initial state. -/
theorem publish_valid_accepted_witness :
    (publish initialState cfgValid projBot1 metaC "J3" 11 "RK3").2.status = 202 ∧
    (publish initialState cfgValid projBot1 metaC "J3" 11 "RK3").2.result.id = "J3" ∧
    (publish initialState cfgValid projBot1 metaC "J3" 11 "RK3").2.result.message
      = "Accepted for publishing." ∧
    (publish initialState cfgValid projBot1 metaC "J3" 11 "RK3").2.result.log
      = "Publish starting..." ∧
    tableView (publish initialState cfgValid projBot1 metaC "J3" 11 "RK3").1
        projBot1.id cfgValid.name
      = tableView initialState projBot1.id cfgValid.name
          ++ [(publish initialState cfgValid projBot1 metaC "J3" 11 "RK3").2] :=
  publish_valid_accepted initialState cfgValid projBot1 metaC "J3" 11 "RK3"
    (by decide) rfl _ _ rfl

/-- Any element of `l` other than the one at index `i` survives
overwriting index `i` and then deleting it (`take i ++ drop (i + 1)`). -/
theorem mem_take_set_append_drop {α : Type} (l : List α) (i : Nat) (u x : α)
    (hx : x ∈ l) (hne : ∀ (h : i < l.length), l[i] ≠ x) :
    x ∈ (l.set i u).take i ++ (l.set i u).drop (i + 1) := by
  induction l generalizing i with
  | nil => simp at hx
  | cons a t ih =>
    cases i with
    | zero =>
      simp only [List.set_cons_zero, List.take_zero, List.drop_succ_cons, List.drop_zero,
        List.nil_append]
      rcases List.mem_cons.mp hx with rfl | hxt
      · have hxx : (x :: t)[0] ≠ x := hne (by simp)
        simp at hxx
      · exact hxt
    | succ k =>
      simp only [List.set_cons_succ, List.take_succ_cons, List.drop_succ_cons,
        List.cons_append]
      rcases List.mem_cons.mp hx with rfl | hxt
      · exact List.mem_cons_self _ _
      · refine List.mem_cons_of_mem _ (ih k hxt ?_)
        intro hk
        have := hne (by simpa using Nat.succ_lt_succ hk)
        simpa using this

/-- Evaluation of `removeLoadingStatus` when the job id is found at index
`i`: the key's list becomes `take i ++ drop (i + 1)` (the JS
`slice(0, i).concat(slice(i + 1))`). -/
theorem removeLoadingStatus_found (s : PubState) (b p jobId : String)
    (m : Obj (List JobRecord)) (l : List JobRecord) (i : Nat)
    (hm : objGet s.publishingBots b = some m) (hl : objGet m p = some l)
    (hi : l.findIdx? (fun item => item.result.id == jobId) = some i) :
    (removeLoadingStatus s b p jobId).1
      = { s with publishingBots :=
            objSet s.publishingBots b (objSet m p (l.take i ++ l.drop (i + 1))) } := by
  simp only [removeLoadingStatus, hm, hl, hi]
  rw [jsSlice_zero_coe]
  rw [show ((i : Int) + 1) = (((i + 1 : Nat)) : Int) by push_cast; ring]
  rw [jsSlice_coe_length]

/-- Membership in the table after a found `removeLoadingStatus` followed
by `cleanup`, reduced to membership in `take i ++ drop (i + 1)`. -/
theorem mem_tableView_remove (s2 : PubState) (b p jobId rkey : String)
    (m2 : Obj (List JobRecord)) (l2 : List JobRecord) (i : Nat) (x : JobRecord)
    (hm2 : objGet s2.publishingBots b = some m2)
    (hl2 : objGet m2 p = some l2)
    (hfi : l2.findIdx? (fun item => item.result.id == jobId) = some i)
    (hmem : x ∈ l2.take i ++ l2.drop (i + 1)) :
    x ∈ tableView (cleanup (removeLoadingStatus s2 b p jobId).1 rkey) b p := by
  have hstep : tableView (cleanup (removeLoadingStatus s2 b p jobId).1 rkey) b p
      = tableView (removeLoadingStatus s2 b p jobId).1 b p := rfl
  rw [hstep, removeLoadingStatus_found s2 b p jobId m2 l2 i hm2 hl2 hfi, tableView_eq]
  simp only [objGet_objSet_self, Option.getD_some]
  exact hmem

/-- Completion of job `jobId` leaves any record with a different id
untouched in its key's Job Status Table list. -/
theorem completeJob_preserves_other (s : PubState) (b p jobId rkey : String)
    (st : Nat) (msg : String) (m : Obj (List JobRecord)) (l : List JobRecord)
    (hm : objGet s.publishingBots b = some m) (hl : objGet m p = some l)
    (x : JobRecord) (hxl : x ∈ l)
    (hA : ∃ z ∈ l, z.result.id = jobId) (hid : jobId ≠ x.result.id) :
    x ∈ tableView (completeJob s b p jobId rkey st msg) b p := by
  have hsome : (l.findIdx? (fun item => item.result.id == jobId)).isSome = true := by
    rw [List.findIdx?_isSome, List.any_eq_true]
    obtain ⟨z, hz, hzid⟩ := hA
    exact ⟨z, hz, by simp [hzid]⟩
  obtain ⟨i, hi⟩ := Option.isSome_iff_exists.mp hsome
  obtain ⟨hilt, hpi, hmin⟩ := List.findIdx?_eq_some_iff_getElem.mp hi
  have hji : l[i].result.id = jobId := by simpa using hpi
  have hget : l.get? i = some l[i] := by
    rw [List.get?_eq_getElem?, List.getElem?_eq_getElem hilt]
  have hfound1 : (l.set i (completedRecord l[i] st msg s.logMessages)).findIdx?
      (fun item => item.result.id == jobId) = some i := by
    rw [List.findIdx?_eq_some_iff_getElem]
    refine ⟨by simpa using hilt, ?_, ?_⟩
    · rw [List.getElem_set, if_pos rfl]
      simp [completedRecord, hji]
    · intro j hji2
      rw [List.getElem_set, if_neg (by omega)]
      exact hmin j hji2
  have hmemfinal : x ∈ (l.set i (completedRecord l[i] st msg s.logMessages)).take i
      ++ (l.set i (completedRecord l[i] st msg s.logMessages)).drop (i + 1) := by
    refine mem_take_set_append_drop l i _ x hxl ?_
    intro h heq
    apply hid
    rw [← hji, heq]
  simp only [completeJob, hm, hl, hi, hget]
  exact mem_tableView_remove _ b p jobId rkey
    (objSet m p (l.set i (completedRecord l[i] st msg s.logMessages)))
    (l.set i (completedRecord l[i] st msg s.logMessages)) i x
    (objGet_objSet_self _ _ _) (objGet_objSet_self _ _ _) hfound1 hmemfinal

/-- C9: when the Job Status Table list of a key holds records for two
distinct (non-empty) job ids `A` and `B`, the completion handling of job
`A` — lookup by id, in-place mutation, History append, removal by id and
staging teardown — completes without fault and leaves the id-`B` record
present and unaltered in the list; each job's record stays until its own
completion. -/
theorem completion_preserves_other_job (s : PubState) (b p A B rkey : String)
    (outcome : DeployOutcome) (deployLogs : List String) (recB : JobRecord)
    (hB : recB ∈ tableView s b p) (hBid : recB.result.id = B)
    (hA : ∃ x ∈ tableView s b p, x.result.id = A)
    (hAB : A ≠ B) (hA0 : A ≠ "") :
    ∃ s', createAndDeploy s b p A rkey outcome deployLogs = Except.ok s' ∧
      recB ∈ tableView s' b p := by
  rcases hq : objGet s.publishingBots b with _ | m
  · exfalso
    rw [tableView_eq, hq] at hB
    simp [objGet] at hB
  rcases hr : objGet m p with _ | l
  · exfalso
    rw [tableView_eq, hq] at hB
    simp [objGet, hr] at hB
  have hBl : recB ∈ l := by
    rw [tableView_eq, hq] at hB
    simpa [hr] using hB
  have hAl : ∃ x ∈ l, x.result.id = A := by
    rw [tableView_eq, hq] at hA
    simpa [hr] using hA
  have hlen : l.length > 0 := List.length_pos.mpr (List.ne_nil_of_mem hBl)
  have hfind : ∃ y, l.find? (fun item => item.result.id == A) = some y := by
    apply Option.isSome_iff_exists.mp
    rw [List.find?_isSome]
    obtain ⟨x, hx, hxid⟩ := hAl
    exact ⟨x, hx, by simp [hxid]⟩
  obtain ⟨y, hy⟩ := hfind
  have hgls : getLoadingStatus { s with logMessages := s.logMessages ++ deployLogs } b p A
      = Except.ok (some y) := by
    simp only [getLoadingStatus, hq, hr]
    rw [if_pos hlen, if_pos hA0, hy]
  have hid : A ≠ recB.result.id := by rw [hBid]; exact hAB
  cases outcome with
  | success =>
    refine ⟨_, ?_,
      completeJob_preserves_other { s with logMessages := s.logMessages ++ deployLogs }
        b p A rkey 200 "Success" m l hq hr recB hBl hAl hid⟩
    unfold createAndDeploy
    dsimp only
    rw [hgls]
  | failure err =>
    refine ⟨_, ?_,
      completeJob_preserves_other { s with logMessages := s.logMessages ++ deployLogs }
        b p A rkey 500 (err.getD "publish error") m l hq hr recB hBl hAl hid⟩
    unfold createAndDeploy
    dsimp only
    rw [hgls]

/-- Witness for C9: completing job `"A"` in a table holding `recA` and
`recB` succeeds and keeps `recB` in the list. -/
theorem completion_preserves_other_job_witness :
    ∃ s', createAndDeploy stateAB "bot1" "prod" "A" "RK" DeployOutcome.success ["d"]
        = Except.ok s' ∧
      recB ∈ tableView s' "bot1" "prod" :=
  completion_preserves_other_job stateAB "bot1" "prod" "A" "B" "RK"
    DeployOutcome.success ["d"] recB (by decide) rfl (by decide) (by decide) (by decide)

end AzurePublisher
